import Mathlib

/-!
Verification of the ringbuf circular buffer (buffer.go).

The Go type Position is int32; arithmetic on it wraps in two's complement.
We model Position values as Int and apply wrap32 wherever the Go code
performs int32 arithmetic or an int-to-int32 conversion; wrap32 x is the
unique representative of x modulo 2^32 inside [-2^31, 2^31).

Go slices of items become Lean lists; the backing array b.buf keeps its
length under Append (List.set).  A Go method returning error becomes a
function returning a Bool success flag (true = nil error) together with
the post state, or an Except value carrying the error payload.
-/

namespace Ringbuf

/-- Two's-complement wrap of an integer to the int32 range. -/
def wrap32 (x : Int) : Int := (x + 2147483648) % 4294967296 - 2147483648

theorem wrap32_lb (x : Int) : -2147483648 ≤ wrap32 x := by
  unfold wrap32; omega

theorem wrap32_ub (x : Int) : wrap32 x < 2147483648 := by
  unfold wrap32; omega

theorem wrap32_eq_self {x : Int} (h1 : -2147483648 ≤ x) (h2 : x < 2147483648) :
    wrap32 x = x := by
  unfold wrap32; omega

theorem wrap32_mod (x : Int) : wrap32 x % 4294967296 = x % 4294967296 := by
  unfold wrap32; omega

theorem wrap32_congr {x y : Int} (h : x % 4294967296 = y % 4294967296) :
    wrap32 x = wrap32 y := by
  unfold wrap32; omega

theorem wrap32_le_self {x : Int} (h : 0 ≤ x) : wrap32 x ≤ x := by
  unfold wrap32; omega

/-- Mirrors the Go struct RingBuf[F]: fields drop, buf, base, next.
drop and base hold int32 values (we keep them as Int; all reachable
values lie in the int32 range); next is a Go int, never negative. -/
structure RingBuf (F : Type) where
  drop : Int
  buf : List F
  base : Int
  next : Nat
deriving DecidableEq

/-- Mirrors NewRingBuf: make([]F, size) zero-initializes, modelled with
the Inhabited default; base is Position(-size), an int-to-int32 cast. -/
def NewRingBuf (F : Type) [Inhabited F] (size : Nat) : RingBuf F :=
  { drop := -1
    buf := List.replicate size default
    base := wrap32 (-(size : Int))
    next := size }

/-- Mirrors RingBuf.Drop: fails when b.next <= int(drop - b.base). -/
def RingBuf.Drop {F : Type} (b : RingBuf F) (drop : Int) : Bool × RingBuf F :=
  if (b.next : Int) ≤ wrap32 (drop - b.base) then
    (false, b)
  else
    (true, { b with drop := drop })

/-- Mirrors RingBuf.Append: overflow when size < int(b.base - b.drop) + b.next;
otherwise write at b.next % size, bumping base by size at the wrap point. -/
def RingBuf.Append {F : Type} (b : RingBuf F) (item : F) : Bool × RingBuf F :=
  let size := b.buf.length
  if (size : Int) < wrap32 (b.base - b.drop) + (b.next : Int) then
    (false, b)
  else
    let next := b.next % size
    let base := if next = 0 then wrap32 (b.base + (size : Int)) else b.base
    (true, { b with buf := b.buf.set next item, base := base, next := next + 1 })

/-- Mirrors RingBuf.iter: resolves a start position into up to two
segments of the backing array, or an out-of-range error carrying the
bottom and upper bounds printed by the Go error message. -/
def RingBuf.iter {F : Type} (b : RingBuf F) (start : Int) :
    Except (Int × Int) (List F × List F) :=
  let bgn := wrap32 (start - b.base)
  if 0 ≤ bgn ∧ bgn ≤ wrap32 (b.next : Int) then
    Except.ok ((b.buf.take b.next).drop bgn.toNat, [])
  else
    let diff := wrap32 (b.base - start)
    if 0 < diff ∧ (b.next : Int) + diff ≤ (b.buf.length : Int) then
      Except.ok (b.buf.drop (b.buf.length - diff.toNat), b.buf.take b.next)
    else
      Except.error (wrap32 (b.base - ((b.buf.length : Int) - (b.next : Int))),
        wrap32 (b.base + (b.next : Int)))

/-- Mirrors RingBuf.ToSlice: append(head, tail...) concatenates the two
segments of iter into one sequence. -/
def RingBuf.ToSlice {F : Type} (b : RingBuf F) (start : Int) :
    Except (Int × Int) (List F) :=
  match b.iter start with
  | Except.error e => Except.error e
  | Except.ok (head, tail) => Except.ok (head ++ tail)

/-- Mirrors the Go struct Iterator[F]: a list of segments, the current
segment index slot, and the index idx inside it (idx is a Go int that
starts at -1, hence Int). -/
structure Iterator (F : Type) where
  ss : List (List F)
  slot : Nat
  idx : Int
deriving DecidableEq

/-- Mirrors NewIterator(slices...). -/
def NewIterator {F : Type} (slices : List (List F)) : Iterator F :=
  { ss := slices, slot := 0, idx := -1 }

/-- Mirrors Iterator.Scan: advance idx, falling over into the following
segment when the current one is exhausted; returns whether an item is
available together with the mutated cursor.  The Go code indexes
r.ss[r.slot] only when the cursor is live; getD models that access. -/
def Iterator.Scan {F : Type} (r : Iterator F) : Bool × Iterator F :=
  let idx := r.idx + 1
  if idx < ((r.ss.getD r.slot []).length : Int) then
    (true, { r with idx := idx })
  else
    let slot := r.slot + 1
    if slot < r.ss.length ∧ 0 < (r.ss.getD slot []).length then
      (true, { r with slot := slot, idx := 0 })
    else
      (false, { r with slot := slot, idx := idx })

/-- Mirrors Iterator.Item: r.ss[r.slot][r.idx], only read after a
successful Scan, where both indices are in bounds. -/
def Iterator.Item {F : Type} [Inhabited F] (r : Iterator F) : F :=
  (r.ss.getD r.slot []).getD r.idx.toNat default

/-- One iteration of the Go loop "for r.Scan() { ret = append(ret, r.Item()) }",
with fuel making termination explicit; the fuel chosen by Iterator.ToSlice
covers every item of a freshly created iterator plus the final failing Scan. -/
def Iterator.drain {F : Type} [Inhabited F] : Nat → Iterator F → List F
  | 0, _ => []
  | n + 1, r =>
    let s := r.Scan
    if s.1 then s.2.Item :: Iterator.drain n s.2 else []

/-- Mirrors Iterator.ToSlice: drains the remaining items into a fresh list. -/
def Iterator.ToSlice {F : Type} [Inhabited F] (r : Iterator F) : List F :=
  Iterator.drain ((r.ss.map List.length).sum + 1) r

/-- Mirrors RingBuf.Iterator: resolve the range, then NewIterator(head, tail). -/
def RingBuf.iterator {F : Type} (b : RingBuf F) (start : Int) :
    Except (Int × Int) (Iterator F) :=
  match b.iter start with
  | Except.error e => Except.error e
  | Except.ok (head, tail) => Except.ok (NewIterator [head, tail])

/-- True when an Except value carries a success. -/
def isOkE {E A : Type} : Except E A → Bool
  | Except.ok _ => true
  | Except.error _ => false

instance {E A : Type} [DecidableEq E] [DecidableEq A] : DecidableEq (Except E A) :=
  fun x y =>
  match x, y with
  | Except.ok a, Except.ok b =>
    if h : a = b then isTrue (by rw [h]) else
      isFalse (by intro hh; cases hh; exact h rfl)
  | Except.ok _, Except.error _ => isFalse (by intro hh; cases hh)
  | Except.error _, Except.ok _ => isFalse (by intro hh; cases hh)
  | Except.error e, Except.error f =>
    if h : e = f then isTrue (by rw [h]) else
      isFalse (by intro hh; cases hh; exact h rfl)

/-- Range-resolution algorithm transcribed from the words of the spec
(section 4.1 Resolve-range), to be compared with RingBuf.iter: with
offset = start - base in wrapping Position arithmetic, a single segment
backing[offset : next] when 0 <= offset <= next, the two segments
backing[capacity - (base-start) : capacity] and backing[0 : next] when
base - start > 0 and next + (base - start) <= capacity, and otherwise
OUT_OF_RANGE reporting bottom = base - (capacity - next) and
upper = base + next. -/
def specResolveRange {F : Type} (b : RingBuf F) (start : Int) :
    Except (Int × Int) (List F × List F) :=
  let offset := wrap32 (start - b.base)
  let cap := b.buf.length
  if 0 ≤ offset ∧ offset ≤ (b.next : Int) then
    Except.ok ((b.buf.take b.next).drop offset.toNat, [])
  else if 0 < wrap32 (b.base - start) ∧
      (b.next : Int) + wrap32 (b.base - start) ≤ (cap : Int) then
    Except.ok (b.buf.drop (cap - (wrap32 (b.base - start)).toNat), b.buf.take b.next)
  else
    Except.error (wrap32 (b.base - ((cap : Int) - (b.next : Int))),
      wrap32 (b.base + (b.next : Int)))

/-- Claim C1 as stated, at one buffer state and one item: the overflow
condition with no mutation, and on success a write at physical slot
(base + next) mod capacity, base bumped by capacity when that slot is 0,
and next becoming that slot plus one. -/
def claimC1Statement (b : RingBuf Int) (item : Int) : Prop :=
  let cap := b.buf.length
  let cond := (cap : Int) < wrap32 (b.base - b.drop) + (b.next : Int)
  let slot := ((wrap32 (b.base + (b.next : Int))).emod (cap : Int)).toNat
  (b.Append item = (false, b) ↔ cond) ∧
  (¬cond → b.Append item =
    (true, { b with buf := b.buf.set slot item,
                    base := if slot = 0 then wrap32 (b.base + (cap : Int)) else b.base,
                    next := slot + 1 }))

/-- The window of start positions claim C3 declares valid: open at
bottom = base - (capacity - next), closed at upper = base + next,
measured through the wrapped offset start - base. -/
def claimC3Window {F : Type} (b : RingBuf F) (start : Int) : Prop :=
  -(((b.buf.length : Int)) - (b.next : Int)) < wrap32 (start - b.base) ∧
  wrap32 (start - b.base) ≤ (b.next : Int)

/-- The window of start positions the code actually accepts: closed at
both ends, bottom = base - (capacity - next) included. -/
def InWindow {F : Type} (b : RingBuf F) (start : Int) : Prop :=
  -(((b.buf.length : Int)) - (b.next : Int)) ≤ wrap32 (start - b.base) ∧
  wrap32 (start - b.base) ≤ (b.next : Int)

instance {F : Type} [DecidableEq F] (b : RingBuf F) (start : Int) :
    Decidable (claimC3Window b start) := by
  unfold claimC3Window; infer_instance

instance {F : Type} [DecidableEq F] (b : RingBuf F) (start : Int) :
    Decidable (InWindow b start) := by
  unfold InWindow; infer_instance

/-- Claim C5 as stated, at one buffer state and one position: a
successful Drop sets the marker to the maximum of the old marker and
the given position, hence never moves it backward. -/
def claimC5Statement (b : RingBuf Int) (p : Int) : Prop :=
  (b.Drop p).1 = true → (b.Drop p).2 = { b with drop := max b.drop p }

instance (b : RingBuf Int) (item : Int) : Decidable (claimC1Statement b item) := by
  unfold claimC1Statement; infer_instance

instance (b : RingBuf Int) (p : Int) : Decidable (claimC5Statement b p) := by
  unfold claimC5Statement; infer_instance

/-- The operations of claim C6, one per public method taking a Position. -/
inductive Op (F : Type) where
  | append (item : F)
  | drop (p : Int)
  | toSlice (p : Int)
  | iterator (p : Int)

/-- What claim C6 compares between the two runs: success or failure of
each operation, and the length of the result of a read. -/
inductive Outcome where
  | ok (len : Nat)
  | err
deriving DecidableEq

/-- Runs one operation against a buffer, recording its outcome; reads
do not change the state. -/
def runOp {F : Type} [Inhabited F] (b : RingBuf F) : Op F → Outcome × RingBuf F
  | Op.append item =>
    let r := b.Append item
    (if r.1 then Outcome.ok 0 else Outcome.err, r.2)
  | Op.drop p =>
    let r := b.Drop p
    (if r.1 then Outcome.ok 0 else Outcome.err, r.2)
  | Op.toSlice p =>
    (match b.ToSlice p with
     | Except.ok l => Outcome.ok l.length
     | Except.error _ => Outcome.err, b)
  | Op.iterator p =>
    (match b.iterator p with
     | Except.ok it => Outcome.ok it.ToSlice.length
     | Except.error _ => Outcome.err, b)

/-- Runs a sequence of operations, collecting the outcomes. -/
def run {F : Type} [Inhabited F] (b : RingBuf F) : List (Op F) → List Outcome
  | [] => []
  | op :: ops =>
    let r := runOp b op
    r.1 :: run r.2 ops

/-- Translates every position stored in a buffer by d, mod 2^32. -/
def shiftState {F : Type} (d : Int) (b : RingBuf F) : RingBuf F :=
  { b with base := wrap32 (b.base + d), drop := wrap32 (b.drop + d) }

/-- Translates the position argument of an operation by d, mod 2^32. -/
def shiftOp {F : Type} (d : Int) : Op F → Op F
  | Op.append item => Op.append item
  | Op.drop p => Op.drop (wrap32 (p + d))
  | Op.toSlice p => Op.toSlice (wrap32 (p + d))
  | Op.iterator p => Op.iterator (wrap32 (p + d))

/-- States reachable from NewRingBuf n through the mutating operations;
a failed operation keeps the previous state, which the step includes. -/
inductive Reachable (F : Type) [Inhabited F] (n : Nat) : RingBuf F → Prop where
  | init : Reachable F n (NewRingBuf F n)
  | append (b : RingBuf F) (item : F) :
      Reachable F n b → Reachable F n (b.Append item).2
  | drop (b : RingBuf F) (p : Int) :
      Reachable F n b → Reachable F n (b.Drop p).2

/-!
Heap model for the aliasing contract of the Synchronizing Wrapper.

Claim C7 is about backing storage, which value semantics cannot see, so
this section re-runs the same Go code over an explicit heap: a heap is a
list of arrays, a Go slice value is an array id with an offset and a
length, and RingBufH is the RingBuf struct holding the id of its backing
array instead of the list itself.  AppendH mutates the backing array in
the heap; iterH returns slice views into it, exactly the sub-ranges the
Go code takes; SyncToSliceH and SyncIteratorH perform the deep copies of
SyncBuf.ToSlice and SyncBuf.Iterator, allocating fresh arrays.
-/

/-- A Go slice value: array id, start offset, length. -/
structure GoSlice where
  arr : Nat
  off : Nat
  len : Nat
deriving DecidableEq

/-- A heap: array contents indexed by array id. -/
abbrev HeapF (F : Type) : Type := List (List F)

/-- Dereferences a slice: the elements it views in the heap. -/
def readSlice {F : Type} (h : HeapF F) (s : GoSlice) : List F :=
  ((h.getD s.arr []).drop s.off).take s.len

/-- RingBuf over the heap: same fields, with the backing array held by id. -/
structure RingBufH where
  drop : Int
  bufArr : Nat
  base : Int
  next : Nat
deriving DecidableEq

/-- RingBuf.Drop over the heap: the heap is untouched. -/
def DropH {F : Type} (h : HeapF F) (b : RingBufH) (p : Int) :
    Bool × HeapF F × RingBufH :=
  if (b.next : Int) ≤ wrap32 (p - b.base) then
    (false, h, b)
  else
    (true, h, { b with drop := p })

/-- RingBuf.Append over the heap: the write b.buf[next] = item mutates
the backing array in place. -/
def AppendH {F : Type} (h : HeapF F) (b : RingBufH) (item : F) :
    Bool × HeapF F × RingBufH :=
  let buf := h.getD b.bufArr []
  let size := buf.length
  if (size : Int) < wrap32 (b.base - b.drop) + (b.next : Int) then
    (false, h, b)
  else
    let next := b.next % size
    let base := if next = 0 then wrap32 (b.base + (size : Int)) else b.base
    (true, h.set b.bufArr (buf.set next item),
      { b with base := base, next := next + 1 })

/-- RingBuf.iter over the heap: the same branches, returning the slice
views b.buf[bgn:next] and nil, or b.buf[size-diff:] and b.buf[:next]. -/
def iterH {F : Type} (h : HeapF F) (b : RingBufH) (start : Int) :
    Except (Int × Int) (GoSlice × GoSlice) :=
  let size := (h.getD b.bufArr []).length
  let bgn := wrap32 (start - b.base)
  if 0 ≤ bgn ∧ bgn ≤ wrap32 (b.next : Int) then
    Except.ok ({ arr := b.bufArr, off := bgn.toNat, len := b.next - bgn.toNat },
      { arr := b.bufArr, off := 0, len := 0 })
  else
    let diff := wrap32 (b.base - start)
    if 0 < diff ∧ (b.next : Int) + diff ≤ (size : Int) then
      Except.ok ({ arr := b.bufArr, off := size - diff.toNat, len := diff.toNat },
        { arr := b.bufArr, off := 0, len := b.next })
    else
      Except.error (wrap32 (b.base - ((size : Int) - (b.next : Int))),
        wrap32 (b.base + (b.next : Int)))

/-- RingBuf.ToSlice over the heap: append(head, tail...) returns the head
slice itself when the tail is empty, and otherwise allocates a fresh
array holding the concatenation. -/
def ToSliceH {F : Type} (h : HeapF F) (b : RingBufH) (start : Int) :
    Except (Int × Int) GoSlice × HeapF F :=
  match iterH h b start with
  | Except.error e => (Except.error e, h)
  | Except.ok (head, tail) =>
    if tail.len = 0 then
      (Except.ok head, h)
    else
      let items := readSlice h head ++ readSlice h tail
      (Except.ok { arr := h.length, off := 0, len := items.length }, h ++ [items])

/-- RingBuf.Iterator over the heap: the cursor holds the two slice views. -/
def IteratorH {F : Type} (h : HeapF F) (b : RingBufH) (start : Int) :
    Except (Int × Int) (List GoSlice) × HeapF F :=
  match iterH h b start with
  | Except.error e => (Except.error e, h)
  | Except.ok (head, tail) => (Except.ok [head, tail], h)

/-- The copy loop of SyncBuf.Iterator: each segment is copied into a
freshly allocated array of its own. -/
def copySegs {F : Type} (h : HeapF F) : List GoSlice → List GoSlice × HeapF F
  | [] => ([], h)
  | s :: rest =>
    let items := readSlice h s
    let fresh : GoSlice := { arr := h.length, off := 0, len := items.length }
    let r := copySegs (h ++ [items]) rest
    (fresh :: r.1, r.2)

/-- SyncBuf.ToSlice over the heap: the wrapped ToSlice, then
ret := make([]F, len(items)); copy(ret, items) into a fresh array. -/
def SyncToSliceH {F : Type} (h : HeapF F) (b : RingBufH) (start : Int) :
    Except (Int × Int) GoSlice × HeapF F :=
  match ToSliceH h b start with
  | (Except.error e, h1) => (Except.error e, h1)
  | (Except.ok s, h1) =>
    let items := readSlice h1 s
    (Except.ok { arr := h1.length, off := 0, len := items.length }, h1 ++ [items])

/-- SyncBuf.Iterator over the heap: the wrapped Iterator, then a deep
copy of every segment before the cursor is handed out. -/
def SyncIteratorH {F : Type} (h : HeapF F) (b : RingBufH) (start : Int) :
    Except (Int × Int) (List GoSlice) × HeapF F :=
  match IteratorH h b start with
  | (Except.error e, h1) => (Except.error e, h1)
  | (Except.ok ss, h1) => (Except.ok (copySegs h1 ss).1, (copySegs h1 ss).2)

/-- The mutating operations a writer may run after a read returns. -/
inductive MutOp (F : Type) where
  | append (item : F)
  | drop (p : Int)

/-- Runs a sequence of Append/Drop mutations over the heap. -/
def runMut {F : Type} (h : HeapF F) (b : RingBufH) : List (MutOp F) → HeapF F × RingBufH
  | [] => (h, b)
  | MutOp.append item :: ops =>
    let r := AppendH h b item
    runMut r.2.1 r.2.2 ops
  | MutOp.drop p :: ops =>
    let r := DropH h b p
    runMut r.2.1 r.2.2 ops

/-! Helper lemmas about the segment iterator: a fresh two-segment
iterator drains to the concatenation of its segments. -/

theorem scan_pair_slot1_lt {F : Type} (h t : List F) (j : Nat) (hj : j < t.length) :
    Iterator.Scan { ss := [h, t], slot := 1, idx := (j : Int) - 1 } =
      (true, { ss := [h, t], slot := 1, idx := (j : Int) }) := by
  simp [Iterator.Scan]
  omega

theorem scan_pair_slot1_end {F : Type} (h t : List F) :
    Iterator.Scan { ss := [h, t], slot := 1, idx := (t.length : Int) - 1 } =
      (false, { ss := [h, t], slot := 2, idx := (t.length : Int) }) := by
  simp [Iterator.Scan]

theorem scan_pair_slot0_lt {F : Type} (h t : List F) (i : Nat) (hi : i < h.length) :
    Iterator.Scan { ss := [h, t], slot := 0, idx := (i : Int) - 1 } =
      (true, { ss := [h, t], slot := 0, idx := (i : Int) }) := by
  simp [Iterator.Scan]
  omega

theorem scan_pair_slot0_end_pos {F : Type} (h t : List F) (ht : 0 < t.length) :
    Iterator.Scan { ss := [h, t], slot := 0, idx := (h.length : Int) - 1 } =
      (true, { ss := [h, t], slot := 1, idx := 0 }) := by
  simp [Iterator.Scan, ht]

theorem scan_pair_slot0_end_nil {F : Type} (h t : List F) (ht : t.length = 0) :
    Iterator.Scan { ss := [h, t], slot := 0, idx := (h.length : Int) - 1 } =
      (false, { ss := [h, t], slot := 1, idx := (h.length : Int) }) := by
  simp [Iterator.Scan, ht]

theorem item_pair_slot0 {F : Type} [Inhabited F] (h t : List F) (i : Nat) (hi : i < h.length) :
    Iterator.Item { ss := [h, t], slot := 0, idx := (i : Int) } = h[i] := by
  simp [Iterator.Item, List.getElem?_eq_getElem hi]

theorem item_pair_slot1 {F : Type} [Inhabited F] (h t : List F) (j : Nat) (hj : j < t.length) :
    Iterator.Item { ss := [h, t], slot := 1, idx := (j : Int) } = t[j] := by
  simp [Iterator.Item, List.getElem?_eq_getElem hj]

theorem drain_pair_slot1 {F : Type} [Inhabited F] (h t : List F) :
    ∀ (fuel j : Nat), t.length - j < fuel → j ≤ t.length →
      Iterator.drain fuel { ss := [h, t], slot := 1, idx := (j : Int) - 1 } = t.drop j := by
  intro fuel
  induction fuel with
  | zero => intro j hf hj; omega
  | succ n ih =>
    intro j hf hj
    by_cases hjt : j < t.length
    · have hj1 : ((j + 1 : Nat) : Int) - 1 = (j : Int) := by push_cast; ring
      have harg : t.length - (j + 1) < n := by omega
      have hrec := ih (j + 1) harg (by omega)
      rw [hj1] at hrec
      simp only [Iterator.drain, scan_pair_slot1_lt h t j hjt]
      rw [item_pair_slot1 h t j hjt, hrec]
      simp only [if_true, List.cons_getElem_drop_succ]
    · have hje : j = t.length := by omega
      subst hje
      have hd : t.drop t.length = ([] : List F) := List.drop_eq_nil_iff.mpr (le_refl t.length)
      simp only [Iterator.drain, scan_pair_slot1_end h t]
      simp [hd]

theorem drain_pair_slot0 {F : Type} [Inhabited F] (h t : List F) :
    ∀ (fuel i : Nat), (h.length - i) + t.length < fuel → i ≤ h.length →
      Iterator.drain fuel { ss := [h, t], slot := 0, idx := (i : Int) - 1 } =
        h.drop i ++ t := by
  intro fuel
  induction fuel with
  | zero => intro i hf hi; omega
  | succ n ih =>
    intro i hf hi
    by_cases hih : i < h.length
    · have hi1 : ((i + 1 : Nat) : Int) - 1 = (i : Int) := by push_cast; ring
      have harg : (h.length - (i + 1)) + t.length < n := by omega
      have hrec := ih (i + 1) harg (by omega)
      rw [hi1] at hrec
      simp only [Iterator.drain, scan_pair_slot0_lt h t i hih]
      rw [item_pair_slot0 h t i hih, hrec]
      simp only [if_true, ← List.cons_append, List.cons_getElem_drop_succ]
    · have hie : i = h.length := by omega
      subst hie
      by_cases ht : 0 < t.length
      · have harg : t.length - 1 < n := by omega
        have hrec := drain_pair_slot1 h t n 1 harg (by omega)
        have hstep : ((1 : Nat) : Int) - 1 = (0 : Int) := by norm_num
        rw [hstep] at hrec
        have hitem := item_pair_slot1 h t 0 ht
        simp only [Nat.cast_zero] at hitem
        simp only [Iterator.drain, scan_pair_slot0_end_pos h t ht]
        rw [hitem, hrec]
        have hd : h.drop h.length = [] := List.drop_eq_nil_iff.mpr (by omega)
        simp only [if_true, hd, List.nil_append]
        exact List.cons_getElem_drop_succ
      · have hd : h.drop h.length = ([] : List F) := List.drop_eq_nil_iff.mpr (le_refl h.length)
        have hte : t = [] := List.length_eq_zero.mp (by omega)
        simp only [Iterator.drain, scan_pair_slot0_end_nil h t (by omega)]
        simp [hd, hte]

theorem newIterator_pair_toSlice {F : Type} [Inhabited F] (h t : List F) :
    (NewIterator [h, t]).ToSlice = h ++ t := by
  have hmain := drain_pair_slot0 h t (h.length + t.length + 1) 0 (by omega) (by omega)
  have h0 : ((0 : Nat) : Int) - 1 = (-1 : Int) := by norm_num
  rw [h0] at hmain
  simp only [NewIterator, Iterator.ToSlice]
  simp only [List.map, List.sum_cons, List.sum_nil]
  have harith : h.length + (t.length + 0) + 1 = h.length + t.length + 1 := by omega
  rw [harith, hmain]
  simp

/-- Range resolution characterized through the closed window: a start
position resolves successfully exactly when its wrapped offset from base
lies in [-(capacity - next), next], and the segment lengths then sum to
next minus that offset. -/
theorem iter_window {F : Type} (b : RingBuf F) (start : Int)
    (h1 : 1 ≤ b.buf.length) (h2 : (b.buf.length : Int) < 2147483648)
    (h3 : b.next ≤ b.buf.length) :
    (InWindow b start →
      ∃ head tail, b.iter start = Except.ok (head, tail) ∧
        ((head.length : Int) + (tail.length : Int)) =
          (b.next : Int) - wrap32 (start - b.base)) ∧
    (¬ InWindow b start → ∃ e, b.iter start = Except.error e) := by
  have hnn : wrap32 ((b.next : Int)) = (b.next : Int) :=
    wrap32_eq_self (by omega) (by omega)
  have hol := wrap32_lb (start - b.base)
  have hou := wrap32_ub (start - b.base)
  have hdiffo : wrap32 (b.base - start) = wrap32 (-(wrap32 (start - b.base))) := by
    have hm := wrap32_mod (start - b.base)
    apply wrap32_congr
    omega
  unfold InWindow
  simp only [RingBuf.iter, hnn]
  by_cases hb1 : 0 ≤ wrap32 (start - b.base) ∧ wrap32 (start - b.base) ≤ (b.next : Int)
  · rw [if_pos hb1]
    constructor
    · intro _
      refine ⟨_, _, rfl, ?_⟩
      have hlt : (b.buf.take b.next).length = b.next := by
        simp [List.length_take, min_eq_left h3]
      rw [List.length_drop, hlt]
      simp only [List.length_nil]
      have hto := Int.toNat_of_nonneg hb1.1
      push_cast
      omega
    · intro hw
      exact absurd ⟨by omega, hb1.2⟩ hw
  · rw [if_neg hb1]
    by_cases hb2 : 0 < wrap32 (b.base - start) ∧
        (b.next : Int) + wrap32 (b.base - start) ≤ (b.buf.length : Int)
    · rw [if_pos hb2]
      have hmin : wrap32 (-(-2147483648 : Int)) = -2147483648 := by decide
      have hne : wrap32 (start - b.base) ≠ -2147483648 := by
        intro hm
        rw [hm, hmin] at hdiffo
        omega
      have hdneg : wrap32 (b.base - start) = -(wrap32 (start - b.base)) := by
        rw [hdiffo]
        exact wrap32_eq_self (by omega) (by omega)
      constructor
      · intro _
        refine ⟨_, _, rfl, ?_⟩
        rw [List.length_drop, List.length_take]
        have hto := Int.toNat_of_nonneg (le_of_lt hb2.1)
        have hd2 := hb2.2
        have hnext0 : (0 : Int) ≤ (b.next : Int) := by omega
        push_cast
        omega
      · intro hw
        exact absurd ⟨by omega, by omega⟩ hw
    · rw [if_neg hb2]
      refine ⟨?_, fun _ => ⟨_, rfl⟩⟩
      intro hw
      exfalso
      have hno : wrap32 (start - b.base) < 0 := by
        by_contra hge
        exact hb1 ⟨by omega, hw.2⟩
      have hgt : -2147483648 < wrap32 (start - b.base) := by omega
      have hdneg : wrap32 (b.base - start) = -(wrap32 (start - b.base)) := by
        rw [hdiffo]
        exact wrap32_eq_self (by omega) (by omega)
      exact hb2 ⟨by omega, by omega⟩

/-! Simulation lemmas for translation invariance: shifting every stored
position and every argument by the same amount commutes with each
operation, because the code only ever compares wrapped differences. -/

theorem wrap32_shift_sub (x y d : Int) :
    wrap32 (wrap32 (x + d) - wrap32 (y + d)) = wrap32 (x - y) := by
  unfold wrap32; omega

theorem wrap32_shift_add (x c d : Int) :
    wrap32 (wrap32 (x + d) + c) = wrap32 (wrap32 (x + c) + d) := by
  unfold wrap32; omega

theorem append_shift {F : Type} (d : Int) (b : RingBuf F) (item : F) :
    (shiftState d b).Append item = ((b.Append item).1, shiftState d (b.Append item).2) := by
  unfold RingBuf.Append shiftState
  simp only [wrap32_shift_sub]
  by_cases hc : (b.buf.length : Int) < wrap32 (b.base - b.drop) + (b.next : Int)
  · simp [hc]
  · simp only [hc, if_neg, if_false]
    by_cases h0 : b.next % b.buf.length = 0
    · simp [h0, wrap32_shift_add]
    · simp [h0]

theorem drop_shift {F : Type} (d : Int) (b : RingBuf F) (p : Int) :
    (shiftState d b).Drop (wrap32 (p + d)) = ((b.Drop p).1, shiftState d (b.Drop p).2) := by
  unfold RingBuf.Drop shiftState
  simp only [wrap32_shift_sub]
  by_cases hc : (b.next : Int) ≤ wrap32 (p - b.base)
  · simp [hc]
  · simp [hc]

theorem iter_shift {F : Type} (d : Int) (b : RingBuf F) (start : Int) :
    (shiftState d b).iter (wrap32 (start + d)) =
      match b.iter start with
      | Except.ok v => Except.ok v
      | Except.error _ =>
        Except.error (wrap32 (wrap32 (b.base + d) - ((b.buf.length : Int) - (b.next : Int))),
          wrap32 (wrap32 (b.base + d) + (b.next : Int))) := by
  unfold RingBuf.iter shiftState
  simp only [wrap32_shift_sub]
  by_cases hb1 : 0 ≤ wrap32 (start - b.base) ∧
      wrap32 (start - b.base) ≤ wrap32 ((b.next : Int))
  · simp [hb1]
  · simp only [hb1, if_neg, if_false]
    by_cases hb2 : 0 < wrap32 (b.base - start) ∧
        (b.next : Int) + wrap32 (b.base - start) ≤ (b.buf.length : Int)
    · simp [hb2]
    · simp [hb2]

theorem runOp_shift {F : Type} [Inhabited F] (d : Int) (b : RingBuf F) (op : Op F) :
    runOp (shiftState d b) (shiftOp d op) = ((runOp b op).1, shiftState d (runOp b op).2) := by
  cases op with
  | append item =>
    simp only [runOp, shiftOp, append_shift]
  | drop p =>
    simp only [runOp, shiftOp, drop_shift]
  | toSlice p =>
    simp only [runOp, shiftOp, RingBuf.ToSlice, iter_shift]
    cases hi : b.iter p with
    | ok v => cases v; simp
    | error e => simp
  | iterator p =>
    simp only [runOp, shiftOp, RingBuf.iterator, iter_shift]
    cases hi : b.iter p with
    | ok v => cases v; simp
    | error e => simp

/-! Claim theorems. -/

/-- Claim C1, corrected, counterexample: at the state with capacity 3,
base 1, next 1, dropMarker 0, Append succeeds but writes at physical
slot next mod capacity = 1, not at (base + next) mod capacity = 2, so
the claim as stated fails at this state. -/
theorem c1_claim_counterexample :
    ¬ claimC1Statement { drop := 0, buf := [10, 20, 30], base := 1, next := 1 } 99 := by
  decide

/-- Claim C1, amended: Append fails, leaving the state unchanged,
exactly when capacity < wrap32(base - dropMarker) + next; otherwise it
succeeds, writes the item at physical slot next mod capacity, adds
capacity to base exactly when that slot is 0, and sets next to that
slot plus one.  The written slot equals (base + next) mod capacity only
under the additional invariant base = 0 mod capacity, which int32
wrap-around eventually breaks. -/
theorem c1_append_overflow_and_write {F : Type} (b : RingBuf F) (item : F)
    (h : 0 < b.buf.length) :
    (b.Append item = (false, b) ↔
      (b.buf.length : Int) < wrap32 (b.base - b.drop) + (b.next : Int)) ∧
    (¬((b.buf.length : Int) < wrap32 (b.base - b.drop) + (b.next : Int)) →
      b.Append item =
        (true, { b with buf := b.buf.set (b.next % b.buf.length) item,
                        base := if b.next % b.buf.length = 0 then
                            wrap32 (b.base + (b.buf.length : Int))
                          else b.base,
                        next := b.next % b.buf.length + 1 })) := by
  unfold RingBuf.Append
  by_cases hc : (b.buf.length : Int) < wrap32 (b.base - b.drop) + (b.next : Int) <;>
    simp [hc]

/-- Claim C1, amended, witness at the counterexample state: the item
lands in slot 1 and next becomes 2. -/
theorem c1_append_witness :
    RingBuf.Append { drop := 0, buf := ([10, 20, 30] : List Int), base := 1, next := 1 } 99 =
      (true, { drop := 0, buf := [10, 99, 30], base := 1, next := 2 }) := by
  have h := c1_append_overflow_and_write
    (b := { drop := 0, buf := ([10, 20, 30] : List Int), base := 1, next := 1 }) 99
    (by decide)
  exact (h.2 (by decide)).trans (by decide)

/-- Claim C2: the range-resolution code RingBuf.iter coincides with the
algorithm as the spec words it, for buffers whose written count does not
exceed a capacity representable in int32. -/
theorem c2_iter_refines_spec {F : Type} (b : RingBuf F) (start : Int)
    (h1 : b.next ≤ b.buf.length) (h2 : (b.buf.length : Int) < 2147483648) :
    b.iter start = specResolveRange b start := by
  have hn : wrap32 (b.next : Int) = (b.next : Int) :=
    wrap32_eq_self (by omega) (by omega)
  simp only [RingBuf.iter, specResolveRange, hn]

/-- Claim C2, witness at the wrap-straddling test state of the repo:
capacity 3, base 3, next 1, start 1. -/
theorem c2_iter_refines_spec_witness :
    RingBuf.iter { drop := 0, buf := ([101, 102, 103] : List Int), base := 3, next := 1 } 1 =
      specResolveRange { drop := 0, buf := ([101, 102, 103] : List Int), base := 3, next := 1 } 1 :=
  c2_iter_refines_spec _ 1 (by decide) (by decide)

/-- Claim C4: Drop fails, mutating nothing, exactly when the position is
at or beyond the write frontier, that is when next <= wrap32(p - base);
otherwise it succeeds. -/
theorem c4_drop_out_of_range {F : Type} (b : RingBuf F) (p : Int) :
    ((b.Drop p).1 = false ↔ (b.next : Int) ≤ wrap32 (p - b.base)) ∧
    ((b.Drop p).1 = false → (b.Drop p).2 = b) ∧
    (¬((b.next : Int) ≤ wrap32 (p - b.base)) → (b.Drop p).1 = true) := by
  unfold RingBuf.Drop
  split <;> simp_all

/-- Claim C4, witness: dropping position 5 on a fresh-frontier buffer
with frontier 1 fails. -/
theorem c4_drop_out_of_range_witness :
    (RingBuf.Drop { drop := 0, buf := ([0] : List Int), base := 0, next := 1 } 5).1 = false :=
  (c4_drop_out_of_range { drop := 0, buf := ([0] : List Int), base := 0, next := 1 } 5).1.mpr
    (by decide)

/-- Claim C5, corrected, counterexample: with dropMarker 5 and frontier
7, Drop(3) succeeds and moves the marker backward to 3, so a successful
Drop does not set the marker to the maximum of the old marker and the
position, and Drop below the marker is not a no-op. -/
theorem c5_claim_counterexample :
    ¬ claimC5Statement { drop := 5, buf := [10, 20, 30], base := 6, next := 1 } 3 := by
  decide

/-- Claim C5, amended: a successful Drop(p) assigns dropMarker = p
unconditionally, which moves the marker backward when p is below it;
only the special case p = dropMarker re-asserts the marker and leaves
the whole state unchanged. -/
theorem c5_drop_assigns_marker {F : Type} (b : RingBuf F) (p : Int)
    (h : (b.Drop p).1 = true) :
    (b.Drop p).2 = { b with drop := p } ∧ (p = b.drop → (b.Drop p).2 = b) := by
  unfold RingBuf.Drop at h ⊢
  by_cases hc : (b.next : Int) ≤ wrap32 (p - b.base)
  · rw [if_pos hc] at h; cases h
  · rw [if_neg hc]
    exact ⟨rfl, fun hp => by rw [hp]⟩

/-- Claim C5, amended, witness: re-dropping the current marker of a
concrete buffer leaves it unchanged. -/
theorem c5_drop_assigns_marker_witness :
    (RingBuf.Drop { drop := 0, buf := ([7] : List Int), base := 0, next := 1 } 0).2 =
      { drop := 0, buf := ([7] : List Int), base := 0, next := 1 } :=
  (c5_drop_assigns_marker { drop := 0, buf := ([7] : List Int), base := 0, next := 1 } 0
    (by decide)).2 rfl

/-- Claim C8: range resolution, ToSlice and Iterator never read the
drop marker: two buffers differing only in dropMarker give identical
results at every start position. -/
theorem c8_reads_ignore_drop_marker {F : Type} (b : RingBuf F) (d : Int) (start : Int) :
    ({ b with drop := d } : RingBuf F).iter start = b.iter start ∧
    ({ b with drop := d } : RingBuf F).ToSlice start = b.ToSlice start ∧
    ({ b with drop := d } : RingBuf F).iterator start = b.iterator start :=
  ⟨rfl, rfl, rfl⟩

/-- Claim C9, corrected, counterexample: NewRingBuf(3) sets dropMarker
to -1 and base to -3, so the marker is not below base. -/
theorem c9_claim_counterexample :
    ¬ ((NewRingBuf Int 3).drop < (NewRingBuf Int 3).base) := by
  decide

/-- Claim C9, amended: the constructor puts dropMarker at -1, strictly
below the initial write frontier base + next = 0, so no appended
position is dropped initially (for n = 2 and up the marker in fact lies
above base, not below it). -/
theorem c9_drop_below_frontier (F : Type) [Inhabited F] (n : Nat)
    (h1 : 1 ≤ n) (h2 : (n : Int) ≤ 2147483648) :
    (NewRingBuf F n).drop = -1 ∧
    (NewRingBuf F n).base + ((NewRingBuf F n).next : Int) = 0 ∧
    (NewRingBuf F n).drop < (NewRingBuf F n).base + ((NewRingBuf F n).next : Int) := by
  unfold NewRingBuf wrap32
  refine ⟨rfl, by simp; omega, by simp; omega⟩

/-- Claim C9, amended, witness at capacity 3. -/
theorem c9_drop_below_frontier_witness :
    (NewRingBuf Int 3).drop < (NewRingBuf Int 3).base + ((NewRingBuf Int 3).next : Int) :=
  (c9_drop_below_frontier Int 3 (by decide) (by decide)).2.2

/-- Claim C3, corrected, counterexample: at the wrap-straddling state of
the repo test (capacity 3, base 3, next 1) the bottom bound is
base - (capacity - next) = 1, which the claim excludes from the valid
window, yet ToSlice(1) succeeds, returning all 3 items. -/
theorem c3_claim_counterexample :
    isOkE (RingBuf.ToSlice
      { drop := 0, buf := ([101, 102, 103] : List Int), base := 3, next := 1 } 1) = true ∧
    ¬ claimC3Window
      { drop := 0, buf := ([101, 102, 103] : List Int), base := 3, next := 1 } 1 := by
  decide

/-- Claim C3, amended: ToSlice and Iterator fail with OUT_OF_RANGE iff
the start lies outside the window closed at BOTH ends,
[base - (capacity - next), base + next]; for every start inside it both
succeed and yield the same logical sequence of length base+next-start
(the wrapped offset subtracted from next). -/
theorem c3_window_characterization {F : Type} [Inhabited F] (b : RingBuf F) (start : Int)
    (h1 : 1 ≤ b.buf.length) (h2 : (b.buf.length : Int) < 2147483648)
    (h3 : b.next ≤ b.buf.length) :
    (isOkE (b.ToSlice start) = true ↔ InWindow b start) ∧
    (isOkE (b.iterator start) = true ↔ InWindow b start) ∧
    (InWindow b start →
      ∃ l, b.ToSlice start = Except.ok l ∧
        (∃ it, b.iterator start = Except.ok it ∧ it.ToSlice = l) ∧
        (l.length : Int) = (b.next : Int) - wrap32 (start - b.base)) := by
  obtain ⟨hin, hout⟩ := iter_window b start h1 h2 h3
  by_cases hw : InWindow b start
  · obtain ⟨head, tail, hiter, hlen⟩ := hin hw
    refine ⟨?_, ?_, ?_⟩
    · simp [RingBuf.ToSlice, hiter, isOkE, hw]
    · simp [RingBuf.iterator, hiter, isOkE, hw]
    · intro _
      refine ⟨head ++ tail, ?_, ⟨NewIterator [head, tail], ?_, ?_⟩, ?_⟩
      · simp [RingBuf.ToSlice, hiter]
      · simp [RingBuf.iterator, hiter]
      · exact newIterator_pair_toSlice head tail
      · rw [List.length_append]
        push_cast
        omega
  · obtain ⟨e, hiter⟩ := hout hw
    refine ⟨?_, ?_, fun hq => absurd hq hw⟩
    · simp [RingBuf.ToSlice, hiter, isOkE, hw]
    · simp [RingBuf.iterator, hiter, isOkE, hw]

/-- Claim C3, amended, witness: reading from the bottom bound of the
wrap-straddling test state succeeds. -/
theorem c3_window_witness :
    isOkE (RingBuf.ToSlice
      { drop := 0, buf := ([101, 102, 103] : List Int), base := 3, next := 1 } 1) = true :=
  (c3_window_characterization
    { drop := 0, buf := ([101, 102, 103] : List Int), base := 3, next := 1 } 1
    (by decide) (by decide) (by decide)).1.mpr (by decide)

/-- Claim C6: all position arithmetic is modular over the 32-bit
Position type: translating base, dropMarker and every position argument
of a sequence of Append/Drop/ToSlice/Iterator operations uniformly by
any d (mod 2^32) changes no success, no failure and no result length;
near-maximum operation is the near-zero run translated this way. -/
theorem c6_translation_invariance {F : Type} [Inhabited F] (d : Int) (b : RingBuf F)
    (ops : List (Op F)) :
    run (shiftState d b) (ops.map (shiftOp d)) = run b ops := by
  induction ops generalizing b with
  | nil => rfl
  | cons op rest ih =>
    simp only [List.map, run, runOp_shift]
    rw [ih]

/-- Claim C10: every state reachable from NewRingBuf(n), n positive,
satisfies 1 <= next <= n and len(backing) = n, and in consequence the
write index next mod n of Append and the slice bounds taken by the two
success branches of range resolution are within the backing array. -/
theorem c10_reachable_invariant (F : Type) [Inhabited F] (n : Nat) (hn : 1 ≤ n)
    (b : RingBuf F) (hr : Reachable F n b) :
    (1 ≤ b.next ∧ b.next ≤ n ∧ b.buf.length = n) ∧
    b.next % b.buf.length < b.buf.length ∧
    (∀ start : Int,
      0 ≤ wrap32 (start - b.base) ∧ wrap32 (start - b.base) ≤ wrap32 ((b.next : Int)) →
        (wrap32 (start - b.base)).toNat ≤ b.next ∧ b.next ≤ b.buf.length) ∧
    (∀ start : Int,
      0 < wrap32 (b.base - start) ∧
          (b.next : Int) + wrap32 (b.base - start) ≤ (b.buf.length : Int) →
        (wrap32 (b.base - start)).toNat ≤ b.buf.length ∧ b.next ≤ b.buf.length) := by
  have core : 1 ≤ b.next ∧ b.next ≤ n ∧ b.buf.length = n := by
    induction hr with
    | init =>
      simp [NewRingBuf]
      omega
    | append b0 item hr0 ih =>
      unfold RingBuf.Append
      by_cases hc : (b0.buf.length : Int) < wrap32 (b0.base - b0.drop) + (b0.next : Int)
      · simpa [hc] using ih
      · have hmod : b0.next % b0.buf.length < b0.buf.length :=
          Nat.mod_lt _ (by omega)
        simp [hc]
        omega
    | drop b0 p hr0 ih =>
      unfold RingBuf.Drop
      by_cases hc : (b0.next : Int) ≤ wrap32 (p - b0.base)
      · simpa [hc] using ih
      · simpa [hc] using ih
  refine ⟨core, Nat.mod_lt _ (by omega), ?_, ?_⟩
  · intro start hs
    have hwn : wrap32 ((b.next : Int)) ≤ (b.next : Int) := wrap32_le_self (by omega)
    have hto := Int.toNat_of_nonneg hs.1
    constructor <;> omega
  · intro start hd
    have hto := Int.toNat_of_nonneg (le_of_lt hd.1)
    constructor <;> omega

/-- Claim C10, witness: the invariant at the initial state of capacity 3. -/
theorem c10_reachable_invariant_witness :
    1 ≤ (NewRingBuf Int 3).next ∧ (NewRingBuf Int 3).next ≤ 3 ∧
      (NewRingBuf Int 3).buf.length = 3 :=
  (c10_reachable_invariant Int 3 (by decide) (NewRingBuf Int 3) Reachable.init).1

theorem getD_set_ne {A : Type} (x d : A) :
    ∀ (l : List A) (i j : Nat), i ≠ j → (l.set i x).getD j d = l.getD j d := by
  intro l
  induction l with
  | nil => intro i j hij; rfl
  | cons a l ih =>
    intro i j hij
    cases i with
    | zero =>
      cases j with
      | zero => exact absurd rfl hij
      | succ j => simp [List.set, List.getD_cons_succ]
    | succ i =>
      cases j with
      | zero => simp [List.set, List.getD_cons_zero]
      | succ j => simpa [List.set, List.getD_cons_succ] using ih i j (by omega)

theorem appendH_effects {F : Type} (h : HeapF F) (b : RingBufH) (item : F)
    (i : Nat) (hi : i ≠ b.bufArr) :
    (AppendH h b item).2.1.getD i [] = h.getD i [] ∧
    (AppendH h b item).2.2.bufArr = b.bufArr := by
  simp only [AppendH]
  by_cases hc : ((h.getD b.bufArr []).length : Int) <
      wrap32 (b.base - b.drop) + (b.next : Int)
  · rw [if_pos hc]
    exact ⟨rfl, rfl⟩
  · rw [if_neg hc]
    exact ⟨getD_set_ne _ _ h b.bufArr i (fun he => hi he.symm), rfl⟩

theorem dropH_effects {F : Type} (h : HeapF F) (b : RingBufH) (p : Int) :
    (DropH h b p).2.1 = h ∧ (DropH h b p).2.2.bufArr = b.bufArr := by
  simp only [DropH]
  by_cases hc : (b.next : Int) ≤ wrap32 (p - b.base)
  · rw [if_pos hc]
    exact ⟨rfl, rfl⟩
  · rw [if_neg hc]
    exact ⟨rfl, rfl⟩

theorem runMut_preserves {F : Type} (ops : List (MutOp F)) :
    ∀ (h : HeapF F) (b : RingBufH) (i : Nat), i ≠ b.bufArr →
      (runMut h b ops).1.getD i [] = h.getD i [] := by
  induction ops with
  | nil => intro h b i _; rfl
  | cons op rest ih =>
    intro h b i hi
    cases op with
    | append item =>
      have hstep := appendH_effects h b item i hi
      simp only [runMut]
      rw [ih _ _ i (by rw [hstep.2]; exact hi), hstep.1]
    | drop p =>
      have hstep := dropH_effects h b p
      simp only [runMut]
      rw [ih _ _ i (by rw [hstep.2]; exact hi), hstep.1]

theorem readSlice_congr {F : Type} (h1 h2 : HeapF F) (s : GoSlice)
    (he : h2.getD s.arr [] = h1.getD s.arr []) :
    readSlice h2 s = readSlice h1 s := by
  unfold readSlice
  rw [he]

theorem syncToSlice_fresh {F : Type} (h : HeapF F) (b : RingBufH) (start : Int)
    (s : GoSlice) (h1 : HeapF F)
    (hres : SyncToSliceH h b start = (Except.ok s, h1)) :
    h.length ≤ s.arr := by
  unfold SyncToSliceH ToSliceH at hres
  cases hi : iterH h b start with
  | error e => rw [hi] at hres; simp at hres
  | ok v =>
    obtain ⟨hd, tl⟩ := v
    rw [hi] at hres
    by_cases ht : tl.len = 0
    · simp only [ht, if_pos rfl] at hres
      cases hres
      simp
    · simp only [if_neg ht] at hres
      cases hres
      simp

theorem copySegs_fresh {F : Type} :
    ∀ (segs : List GoSlice) (h : HeapF F) (s : GoSlice),
      s ∈ (copySegs h segs).1 → h.length ≤ s.arr := by
  intro segs
  induction segs with
  | nil => intro h s hs; cases hs
  | cons a rest ih =>
    intro h s hs
    simp only [copySegs] at hs
    cases hs with
    | head => exact le_refl _
    | tail _ hmem =>
      have := ih (h ++ [readSlice h a]) s hmem
      simp at this
      omega

theorem syncIterator_heap {F : Type} (h : HeapF F) (b : RingBufH) (start : Int)
    (ss : List GoSlice) (h1 : HeapF F)
    (hres : SyncIteratorH h b start = (Except.ok ss, h1)) :
    ∀ s ∈ ss, h.length ≤ s.arr := by
  unfold SyncIteratorH IteratorH at hres
  cases hi : iterH h b start with
  | error e => rw [hi] at hres; simp at hres
  | ok v =>
    obtain ⟨hd, tl⟩ := v
    rw [hi] at hres
    simp only [] at hres
    cases hres
    intro s hs
    exact copySegs_fresh [hd, tl] h s hs

/-- Claim C7: every sequence or iterator the Synchronizing Wrapper
returns lives in freshly allocated arrays at or beyond the end of the
heap at call time, so no later Append or Drop on the wrapped buffer,
which only writes the buffer's own backing array, changes what the
returned slices read. -/
theorem c7_sync_reads_never_alias {F : Type} (h : HeapF F) (b : RingBufH)
    (start : Int) (ops : List (MutOp F)) (hb : b.bufArr < h.length) :
    (∀ s h1, SyncToSliceH h b start = (Except.ok s, h1) →
      readSlice (runMut h1 b ops).1 s = readSlice h1 s) ∧
    (∀ ss h1, SyncIteratorH h b start = (Except.ok ss, h1) →
      ∀ s ∈ ss, readSlice (runMut h1 b ops).1 s = readSlice h1 s) := by
  constructor
  · intro s h1 hres
    have hfresh := syncToSlice_fresh h b start s h1 hres
    exact readSlice_congr h1 _ s
      (runMut_preserves ops h1 b s.arr (by omega))
  · intro ss h1 hres s hs
    have hfresh := syncIterator_heap h b start ss h1 hres s hs
    exact readSlice_congr h1 _ s
      (runMut_preserves ops h1 b s.arr (by omega))

/-- Claim C7, witness: a copied 3-item read from the wrap-straddling
state survives a subsequent in-place Append unchanged. -/
theorem c7_sync_reads_never_alias_witness :
    readSlice (runMut ([[10, 20, 30], [20, 30, 10], [20, 30, 10]] : HeapF Int)
        { drop := 2, bufArr := 0, base := 3, next := 1 } [MutOp.append 99]).1
      { arr := 2, off := 0, len := 3 } =
    readSlice ([[10, 20, 30], [20, 30, 10], [20, 30, 10]] : HeapF Int)
      { arr := 2, off := 0, len := 3 } :=
  (c7_sync_reads_never_alias [[10, 20, 30]]
      { drop := 2, bufArr := 0, base := 3, next := 1 } 1 [MutOp.append 99]
      (by decide)).1
    { arr := 2, off := 0, len := 3 }
    [[10, 20, 30], [20, 30, 10], [20, 30, 10]]
    (by decide)

end Ringbuf
